import Mathlib

/- Shallow embedding of the scrappy_mvp trading pipeline: the RSI signal
   detector, the alert threshold rule, the sentiment aggregation join, and
   the asset-finder composite scoring and ranking. Prices, scores and
   sentiment values are modelled as rationals; a pandas NaN is modelled as
   Option.none where it matters (missing daily_history, undefined RSI,
   missing forward P/E modelled as the float inf default). -/

namespace ScrappyMVP

/- ------------------------------------------------------------------ -/
/- trading_detector.py                                                -/
/- ------------------------------------------------------------------ -/

/-- Successive differences of a close series, as series.diff() with the
leading NaN dropped: entry i is close (i+1) minus close i. -/
def diffs : List ℚ → List ℚ
  | a :: b :: t => (b - a) :: diffs (b :: t)
  | _ => []

/-- Gain series of calculate_rsi: delta.where(delta > 0, 0). The leading
NaN of diff compares false against 0 and becomes 0, hence the leading 0. -/
def gains (l : List ℚ) : List ℚ := 0 :: (diffs l).map (fun d => max d 0)

/-- Loss series of calculate_rsi: -delta.where(delta < 0, 0), again with a
leading 0 for the leading NaN of diff. -/
def losses (l : List ℚ) : List ℚ := 0 :: (diffs l).map (fun d => max (-d) 0)

/-- Rolling simple mean with window 14 and min_periods 1, evaluated at
index i of the series g: the mean of the last min 14 (i+1) entries up to
and including index i. -/
def rollingMeanAt (g : List ℚ) (i : ℕ) : ℚ :=
  ((g.take (i + 1)).drop (i + 1 - 14)).sum / ((min 14 (i + 1) : ℕ) : ℚ)

/-- avg_gain at the last index of the series. -/
def avgGainLast (l : List ℚ) : ℚ := rollingMeanAt (gains l) (l.length - 1)

/-- avg_loss at the last index of the series. -/
def avgLossLast (l : List ℚ) : ℚ := rollingMeanAt (losses l) (l.length - 1)

/-- Final RSI value of calculate_rsi at the last index: none models the NaN
produced by avg_loss.replace(0, nan) when avg_loss is 0, otherwise
100 - 100 / (1 + rs) with rs = avg_gain / avg_loss. -/
def rsiLast (l : List ℚ) : Option ℚ :=
  if avgLossLast l = 0 then none
  else some (100 - 100 / (1 + avgGainLast l / avgLossLast l))

/-- Per-asset branch of TradingSignalDetector.detect_opportunities: the
argument is the daily_history entry of the market-data record, none when
the key is absent. -/
def detectSignal (daily_history : Option (List ℚ)) : String :=
  match daily_history with
  | none => "No signal (insufficient history)"
  | some h =>
    if h.length ≥ 14 then
      match rsiLast h with
      | some r =>
        if r > 70 then "Momentum (Overbought)"
        else if r < 30 then "Momentum (Oversold)"
        else "No signal"
      | none => "No signal (insufficient data)"
    else "No signal (insufficient history)"

/-- TradingSignalDetector.detect_opportunities over the whole market-data
map, modelled as an association list keyed by asset. -/
def detect_opportunities (market_data : List (String × Option (List ℚ))) :
    List (String × String) :=
  market_data.map (fun p => (p.1, detectSignal p.2))

/- ------------------------------------------------------------------ -/
/- Substring machinery for the Python in operator on str               -/
/- ------------------------------------------------------------------ -/

/-- startsWithL pat text is true when pat is an initial segment of text. -/
def startsWithL : List Char → List Char → Bool
  | [], _ => true
  | _ :: _, [] => false
  | a :: as, b :: bs => a = b && startsWithL as bs

/-- containsSub pat text is the Python membership test pat in text on the
underlying character lists: pat occurs contiguously somewhere in text. -/
def containsSub : List Char → List Char → Bool
  | pat, [] => startsWithL pat []
  | pat, c :: ts => startsWithL pat (c :: ts) || containsSub pat ts

/-- occursIn pat text is the specification-level statement that pat occurs
contiguously inside text. -/
def occursIn (pat text : List Char) : Prop := ∃ s r, text = s ++ pat ++ r

/-- Python membership test for strings, case sensitive. -/
def containsStr (pat s : String) : Bool := containsSub pat.toList s.toList

/-- Lowercased character list of a string, modelling str.lower(). -/
def lowerL (s : String) : List Char := s.toList.map Char.toLower

/- ------------------------------------------------------------------ -/
/- Shared sentiment record                                             -/
/- ------------------------------------------------------------------ -/

/-- The per-asset aggregated sentiment record avg_compound and count. -/
structure SentimentInfo where
  avg_compound : ℚ
  count : ℕ
deriving DecidableEq

/-- The default sentiment record substituted by dict.get for assets with no
entry in the asset-sentiments map. -/
def defaultSentiment : SentimentInfo := ⟨0, 0⟩

/- ------------------------------------------------------------------ -/
/- alert_manager.py                                                    -/
/- ------------------------------------------------------------------ -/

/-- The alert threshold rule of AlertManager.process_alerts. -/
def shouldAlert (signal : String) (s : SentimentInfo) : Bool :=
  (containsStr "Oversold" signal && decide ((1 : ℚ)/2 < s.avg_compound)) ||
  (containsStr "Overbought" signal && decide (s.avg_compound < -((1 : ℚ)/2)))

/-- AlertManager.process_alerts, modelled as returning the assets for which
an alert email is composed and sent, in iteration order. -/
def process_alerts (opportunities : List (String × String))
    (asset_sentiments : List (String × SentimentInfo)) : List String :=
  opportunities.filterMap (fun p =>
    if shouldAlert p.2 ((asset_sentiments.lookup p.1).getD defaultSentiment)
    then some p.1 else none)

/- ------------------------------------------------------------------ -/
/- sentiment_analyzer.py                                               -/
/- ------------------------------------------------------------------ -/

/-- A news item as seen by aggregate_sentiment_by_asset: the headline
title, its description, and the compound polarity score that the external
VADER scorer assigned to the item (the scorer itself is a third-party
library and is modelled as an input). -/
structure NewsItem where
  title : String
  description : String
  compound : ℚ
deriving DecidableEq

/-- The join policy: the ticker matches a news item when the lowercased
ticker occurs as a substring of the lowercased title or of the lowercased
description. -/
def matchesAsset (asset : String) (item : NewsItem) : Bool :=
  containsSub (lowerL asset) (lowerL item.title) ||
  containsSub (lowerL asset) (lowerL item.description)

/-- Per-asset aggregation of SentimentAnalyzer.aggregate_sentiment_by_asset:
the arithmetic mean of the compound scores of the matching items together
with the number of matches, or (0, 0) when nothing matches. -/
def aggregateForAsset (news : List NewsItem) (asset : String) : ℚ × ℕ :=
  let compounds := (news.filter (matchesAsset asset)).map NewsItem.compound
  if compounds.isEmpty then (0, 0)
  else (compounds.sum / (compounds.length : ℚ), compounds.length)

/-- SentimentAnalyzer.aggregate_sentiment_by_asset over the tracked asset
list, as an association list keyed by asset. -/
def aggregate_sentiment_by_asset (news : List NewsItem) (assets : List String) :
    List (String × (ℚ × ℕ)) :=
  assets.map (fun a => (a, aggregateForAsset news a))

/- ------------------------------------------------------------------ -/
/- asset_finder.py                                                     -/
/- ------------------------------------------------------------------ -/

/-- The per-ticker record produced by AssetFinder.fetch_asset_data that the
scoring step reads: the annualized volatility and the forward P/E ratio.
The forward P/E defaults to float inf when yfinance has none; that default
is modelled as Option.none. -/
structure FetchedAsset where
  volatility : ℚ
  forwardPE : Option ℚ

/-- sentiment_weight of find_interesting_assets: the absolute compound
score when the asset has news, else the neutral fallback 0.1. -/
def sentimentWeight (s : SentimentInfo) : ℚ :=
  if 0 < s.count then |s.avg_compound| else 1/10

/-- pe_score of find_interesting_assets: 1 / pe when the forward P/E is
finite and positive, else 0. -/
def peScore : Option ℚ → ℚ
  | none => 0
  | some pe => if 0 < pe then 1 / pe else 0

/-- The composite score: sentiment_weight * 0.4 + volatility * 0.3 +
pe_score * 0.3. -/
def compositeScore (s : SentimentInfo) (d : FetchedAsset) : ℚ :=
  sentimentWeight s * (4/10) + d.volatility * (3/10) + peScore d.forwardPE * (3/10)

/-- The scored candidate list built by find_interesting_assets: candidates
whose fetch returned no usable data (none) are skipped, the rest are paired
with their composite score in candidate order. -/
def scoredCandidates (candidates : List (String × Option FetchedAsset))
    (asset_sentiments : List (String × SentimentInfo)) : List (String × ℚ) :=
  candidates.filterMap (fun c =>
    match c.2 with
    | none => none
    | some d =>
      some (c.1, compositeScore ((asset_sentiments.lookup c.1).getD defaultSentiment) d))

/-- Stable insertion for a descending sort: x goes in front of the first
element whose key does not exceed the key of x, so equal keys keep the
earlier element first. -/
def insertDesc {α : Type} (key : α → ℚ) (x : α) : List α → List α
  | [] => [x]
  | y :: ys => if key y ≤ key x then x :: y :: ys else y :: insertDesc key x ys

/-- Stable descending insertion sort, modelling list.sort(key=...,
reverse=True), which CPython documents as stable. -/
def sortDesc {α : Type} (key : α → ℚ) : List α → List α
  | [] => []
  | x :: xs => insertDesc key x (sortDesc key xs)

/-- The clamp applied to target_assets in the AssetFinder constructor:
max(5, min(target_assets, 10)). -/
def targetClamped (target_assets : ℕ) : ℕ := max 5 (min target_assets 10)

/-- AssetFinder.find_interesting_assets: score the candidates, sort by
score descending (stable), and return the tickers of the top
target_assets (clamped) entries. -/
def find_interesting_assets (target_assets : ℕ)
    (candidates : List (String × Option FetchedAsset))
    (asset_sentiments : List (String × SentimentInfo)) : List String :=
  ((sortDesc Prod.snd (scoredCandidates candidates asset_sentiments)).map Prod.fst).take
    (targetClamped target_assets)

/- ------------------------------------------------------------------ -/
/- app.py                                                              -/
/- ------------------------------------------------------------------ -/

/-- The hardcoded fallback ticker list of main (and of
fetch_biggest_losers). -/
def fallbackTickers : List String :=
  ["DZSI", "BBWI", "ETSY", "SENS", "NGVC", "INOD", "NGS", "OB", "TBBK", "HESM"]

/-- The fallback step of main: when find_interesting_assets returned an
empty ranked list, use the first 5 entries of the hardcoded list. -/
def selectAssets (ranked : List String) : List String :=
  if ranked.isEmpty then fallbackTickers.take 5 else ranked

/- ------------------------------------------------------------------ -/
/- Helper lemmas: substring machinery                                  -/
/- ------------------------------------------------------------------ -/

theorem startsWithL_iff (pat text : List Char) :
    startsWithL pat text = true ↔ ∃ r, text = pat ++ r := by
  induction pat generalizing text with
  | nil => simp [startsWithL]
  | cons a as ih =>
    cases text with
    | nil =>
      simp [startsWithL]
    | cons b bs =>
      simp only [startsWithL, Bool.and_eq_true, decide_eq_true_eq, ih, List.cons_append,
        List.cons.injEq]
      constructor
      · rintro ⟨rfl, r, rfl⟩
        exact ⟨r, rfl, rfl⟩
      · rintro ⟨r, rfl, rfl⟩
        exact ⟨rfl, r, rfl⟩

theorem containsSub_iff (pat text : List Char) :
    containsSub pat text = true ↔ occursIn pat text := by
  unfold occursIn
  induction text with
  | nil =>
    simp only [containsSub, startsWithL_iff]
    constructor
    · rintro ⟨r, h⟩
      exact ⟨[], r, by simpa using h⟩
    · rintro ⟨s, r, h⟩
      rcases List.append_eq_nil.mp h.symm with ⟨h2, rfl⟩
      rcases List.append_eq_nil.mp h2 with ⟨rfl, rfl⟩
      exact ⟨[], rfl⟩
  | cons c ts ih =>
    simp only [containsSub, Bool.or_eq_true, startsWithL_iff, ih]
    constructor
    · rintro (⟨r, h⟩ | ⟨s, r, h⟩)
      · exact ⟨[], r, by simpa using h⟩
      · exact ⟨c :: s, r, by simp [h]⟩
    · rintro ⟨s, r, h⟩
      cases s with
      | nil => exact Or.inl ⟨r, by simpa using h⟩
      | cons c' s' =>
        simp only [List.cons_append, List.cons.injEq] at h
        exact Or.inr ⟨s', r, h.2⟩

theorem containsStr_iff (pat s : String) :
    containsStr pat s = true ↔ occursIn pat.toList s.toList :=
  containsSub_iff pat.toList s.toList

/- ------------------------------------------------------------------ -/
/- Helper lemmas: RSI                                                  -/
/- ------------------------------------------------------------------ -/

theorem diffs_length (l : List ℚ) : (diffs l).length = l.length - 1 := by
  induction l with
  | nil => simp [diffs]
  | cons a t ih =>
    cases t with
    | nil => simp [diffs]
    | cons b t' =>
      simp only [diffs, List.length_cons] at ih ⊢
      omega

theorem diffs_nonneg_of_chain (l : List ℚ) (hc : List.Chain' (· ≤ ·) l) :
    ∀ d ∈ diffs l, 0 ≤ d := by
  induction l with
  | nil => simp [diffs]
  | cons a t ih =>
    cases t with
    | nil => simp [diffs]
    | cons b t' =>
      rcases List.chain'_cons.mp hc with ⟨hab, hc'⟩
      intro d hd
      rcases List.mem_cons.mp hd with rfl | hd'
      · linarith
      · exact ih hc' d hd'

theorem diffs_zero_of_const (l : List ℚ) (c : ℚ) (hc : ∀ x ∈ l, x = c) :
    ∀ d ∈ diffs l, d = 0 := by
  induction l with
  | nil => simp [diffs]
  | cons a t ih =>
    cases t with
    | nil => simp [diffs]
    | cons b t' =>
      intro d hd
      rcases List.mem_cons.mp hd with rfl | hd'
      · have ha := hc a (by simp)
        have hb := hc b (by simp)
        rw [ha, hb]; ring
      · exact ih (fun x hx => hc x (List.mem_cons_of_mem a hx)) d hd'

theorem losses_eq_replicate (l : List ℚ) (hne : l ≠ [])
    (hd : ∀ d ∈ diffs l, 0 ≤ d) : losses l = List.replicate l.length 0 := by
  have hmap : (diffs l).map (fun d => max (-d) 0) = List.replicate (diffs l).length 0 := by
    have hall : ∀ x ∈ (diffs l).map (fun d => max (-d) 0), x = 0 := by
      intro x hx
      rcases List.mem_map.mp hx with ⟨d, hdm, rfl⟩
      have := hd d hdm
      simp only [max_eq_right_iff]
      linarith
    simpa [List.length_map] using List.eq_replicate_of_mem hall
  have hlen : l.length = (diffs l).length + 1 := by
    rw [diffs_length]
    rcases l with _ | ⟨a, t⟩
    · exact absurd rfl hne
    · simp
  rw [losses, hmap, hlen, List.replicate_succ]

theorem rollingMeanAt_replicate_zero (n i : ℕ) :
    rollingMeanAt (List.replicate n 0) i = 0 := by
  unfold rollingMeanAt
  rw [List.take_replicate, List.drop_replicate, List.sum_replicate]
  simp

theorem detectSignal_insufficient_data (h : List ℚ) (hlen : 14 ≤ h.length)
    (hd : ∀ d ∈ diffs h, 0 ≤ d) :
    detectSignal (some h) = "No signal (insufficient data)" := by
  have hne : h ≠ [] := by
    intro hempty
    rw [hempty] at hlen
    simp at hlen
  have hav : avgLossLast h = 0 := by
    unfold avgLossLast
    rw [losses_eq_replicate h hne hd, rollingMeanAt_replicate_zero]
  simp only [detectSignal, ge_iff_le]
  rw [if_pos hlen, rsiLast, if_pos hav]

/- ------------------------------------------------------------------ -/
/- Helper lemmas: stable descending insertion sort                     -/
/- ------------------------------------------------------------------ -/

theorem insertDesc_perm {α : Type} (key : α → ℚ) (x : α) (l : List α) :
    List.Perm (insertDesc key x l) (x :: l) := by
  induction l with
  | nil => simp [insertDesc]
  | cons y ys ih =>
    unfold insertDesc
    by_cases h : key y ≤ key x
    · rw [if_pos h]
    · rw [if_neg h]
      exact (ih.cons y).trans (List.Perm.swap x y ys)

theorem sortDesc_perm {α : Type} (key : α → ℚ) (l : List α) :
    List.Perm (sortDesc key l) l := by
  induction l with
  | nil => simp [sortDesc]
  | cons x xs ih => exact (insertDesc_perm key x (sortDesc key xs)).trans (ih.cons x)

theorem insertDesc_sorted {α : Type} (key : α → ℚ) (x : α) (l : List α)
    (hl : List.Pairwise (fun a b => key b ≤ key a) l) :
    List.Pairwise (fun a b => key b ≤ key a) (insertDesc key x l) := by
  induction l with
  | nil => simp [insertDesc]
  | cons y ys ih =>
    rcases List.pairwise_cons.mp hl with ⟨hy, hys⟩
    unfold insertDesc
    by_cases h : key y ≤ key x
    · rw [if_pos h]
      refine List.pairwise_cons.mpr ⟨?_, hl⟩
      intro z hz
      rcases List.mem_cons.mp hz with rfl | hz'
      · exact h
      · exact le_trans (hy z hz') h
    · rw [if_neg h]
      refine List.pairwise_cons.mpr ⟨?_, ih hys⟩
      intro z hz
      rcases List.mem_cons.mp ((insertDesc_perm key x ys).mem_iff.mp hz) with rfl | hz'
      · exact le_of_lt (not_le.mp h)
      · exact hy z hz'

theorem sortDesc_sorted {α : Type} (key : α → ℚ) (l : List α) :
    List.Pairwise (fun a b => key b ≤ key a) (sortDesc key l) := by
  induction l with
  | nil => simp [sortDesc]
  | cons x xs ih => exact insertDesc_sorted key x (sortDesc key xs) ih

theorem insertDesc_lex {β : Type} (key : β → ℚ) (idx : β → ℕ) (x : β) (l : List β)
    (hl : List.Pairwise (fun a b => key b < key a ∨ (key a = key b ∧ idx a < idx b)) l)
    (hx : ∀ y ∈ l, idx x < idx y) :
    List.Pairwise (fun a b => key b < key a ∨ (key a = key b ∧ idx a < idx b))
      (insertDesc key x l) := by
  induction l with
  | nil => simp [insertDesc]
  | cons y ys ih =>
    rcases List.pairwise_cons.mp hl with ⟨hy, hys⟩
    unfold insertDesc
    by_cases h : key y ≤ key x
    · rw [if_pos h]
      refine List.pairwise_cons.mpr ⟨?_, hl⟩
      intro z hz
      rcases List.mem_cons.mp hz with rfl | hz'
      · rcases lt_or_eq_of_le h with h' | h'
        · exact Or.inl h'
        · exact Or.inr ⟨h'.symm, hx z (List.mem_cons_self _ _)⟩
      · rcases hy z hz' with h' | ⟨heq, _⟩
        · exact Or.inl (lt_of_lt_of_le h' h)
        · rcases lt_or_eq_of_le h with h2 | h2
          · exact Or.inl (by rw [← heq]; exact h2)
          · exact Or.inr ⟨h2.symm.trans heq, hx z (List.mem_cons_of_mem y hz')⟩
    · rw [if_neg h]
      refine List.pairwise_cons.mpr
        ⟨?_, ih hys (fun z hz => hx z (List.mem_cons_of_mem y hz))⟩
      intro z hz
      rcases List.mem_cons.mp ((insertDesc_perm key x ys).mem_iff.mp hz) with rfl | hz'
      · exact Or.inl (not_le.mp h)
      · exact hy z hz'

theorem sortDesc_lex {β : Type} (key : β → ℚ) (idx : β → ℕ) (l : List β)
    (hl : List.Pairwise (fun a b => idx a < idx b) l) :
    List.Pairwise (fun a b => key b < key a ∨ (key a = key b ∧ idx a < idx b))
      (sortDesc key l) := by
  induction l with
  | nil => simp [sortDesc]
  | cons x xs ih =>
    rcases List.pairwise_cons.mp hl with ⟨hx, hxs⟩
    exact insertDesc_lex key idx x (sortDesc key xs) (ih hxs)
      (fun z hz => hx z ((sortDesc_perm key xs).mem_iff.mp hz))

theorem insertDesc_map_snd {α : Type} (key : α → ℚ) (x : ℕ × α) (l : List (ℕ × α)) :
    (insertDesc (fun p => key p.2) x l).map Prod.snd = insertDesc key x.2 (l.map Prod.snd) := by
  induction l with
  | nil => simp [insertDesc]
  | cons y ys ih =>
    simp only [List.map_cons, insertDesc]
    by_cases h : key y.2 ≤ key x.2
    · rw [if_pos h, if_pos h]
      simp
    · rw [if_neg h, if_neg h]
      simp only [List.map_cons, ih]

theorem sortDesc_map_snd {α : Type} (key : α → ℚ) (l : List (ℕ × α)) :
    (sortDesc (fun p => key p.2) l).map Prod.snd = sortDesc key (l.map Prod.snd) := by
  induction l with
  | nil => simp [sortDesc]
  | cons x xs ih =>
    simp only [List.map_cons, sortDesc]
    rw [insertDesc_map_snd, ih]

theorem le_idx_of_mem_enumFrom {α : Type} (l : List α) (n : ℕ) (p : ℕ × α)
    (hp : p ∈ List.enumFrom n l) : n ≤ p.1 := by
  induction l generalizing n with
  | nil => simp [List.enumFrom] at hp
  | cons a t ih =>
    rcases List.mem_cons.mp (by simpa [List.enumFrom] using hp) with rfl | hp'
    · simp
    · exact Nat.le_of_succ_le (ih (n + 1) hp')

theorem pairwise_idx_enumFrom {α : Type} (l : List α) (n : ℕ) :
    List.Pairwise (fun a b => a.1 < b.1) (List.enumFrom n l) := by
  induction l generalizing n with
  | nil => simp [List.enumFrom]
  | cons a t ih =>
    simp only [List.enumFrom]
    refine List.pairwise_cons.mpr ⟨?_, ih (n + 1)⟩
    intro p hp
    exact Nat.lt_of_lt_of_le (Nat.lt_succ_self n) (le_idx_of_mem_enumFrom t (n + 1) p hp)

theorem pairwise_idx_enum {α : Type} (l : List α) :
    List.Pairwise (fun a b => a.1 < b.1) l.enum :=
  pairwise_idx_enumFrom l 0

/- ------------------------------------------------------------------ -/
/- Helper lemmas: alert rule and sentiment join                        -/
/- ------------------------------------------------------------------ -/

theorem shouldAlert_iff (signal : String) (s : SentimentInfo) :
    shouldAlert signal s = true ↔
      ((occursIn "Oversold".toList signal.toList ∧ 1/2 < s.avg_compound) ∨
       (occursIn "Overbought".toList signal.toList ∧ s.avg_compound < -(1/2))) := by
  unfold shouldAlert
  rw [Bool.or_eq_true, Bool.and_eq_true, Bool.and_eq_true, decide_eq_true_eq,
    decide_eq_true_eq, containsStr_iff, containsStr_iff]

theorem matchesAsset_iff (asset : String) (item : NewsItem) :
    matchesAsset asset item = true ↔
      (occursIn (lowerL asset) (lowerL item.title) ∨
       occursIn (lowerL asset) (lowerL item.description)) := by
  unfold matchesAsset
  rw [Bool.or_eq_true, containsSub_iff, containsSub_iff]

/- ------------------------------------------------------------------ -/
/- Claims                                                              -/
/- ------------------------------------------------------------------ -/

/-- C1 counterexample: with a strictly increasing 20-point daily history,
detect_opportunities classifies the asset as "No signal (insufficient
data)", not as "Momentum (Overbought)" as the claim states: every loss is
0, avg_loss is 0, and the code turns the 0 average loss into NaN, so the
final RSI is undefined rather than greater than 70. -/
theorem c1_counterexample :
    detect_opportunities
        [("AAA", some [1, 2, 3, 4, 5, 6, 7, 8, 9, 10, 11, 12, 13, 14, 15, 16, 17, 18, 19, 20])]
      = [("AAA", "No signal (insufficient data)")] ∧
    "No signal (insufficient data)" ≠ "Momentum (Overbought)" := by
  constructor
  · unfold detect_opportunities
    simp only [List.map_cons, List.map_nil]
    rw [detectSignal_insufficient_data _ (by simp)
      (diffs_nonneg_of_chain _ (by norm_num [List.chain'_cons]))]
  · decide

/-- C1 (amended): for every market-data map and every asset whose
daily_history is a monotonically increasing sequence of 20 closing prices,
TradingSignalDetector.detect_opportunities classifies that asset as
"No signal (insufficient data)": the average loss over the window is 0, so
its last RSI value is undefined rather than above 70. -/
theorem c1_amended_monotone_insufficient_data
    (market_data : List (String × Option (List ℚ))) (asset : String) (h : List ℚ)
    (hmem : (asset, some h) ∈ market_data) (hmono : List.Chain' (· ≤ ·) h)
    (hlen : h.length = 20) :
    (asset, "No signal (insufficient data)") ∈ detect_opportunities market_data := by
  have hsig : detectSignal (some h) = "No signal (insufficient data)" :=
    detectSignal_insufficient_data h (by omega) (diffs_nonneg_of_chain h hmono)
  exact List.mem_map.mpr ⟨(asset, some h), hmem, by simp [hsig]⟩

/-- C1 witness: the amended theorem applied to a concrete strictly
increasing 20-point history. -/
theorem c1_amended_witness :
    ("AAA", "No signal (insufficient data)") ∈ detect_opportunities
      [("AAA", some [1, 2, 3, 4, 5, 6, 7, 8, 9, 10, 11, 12, 13, 14, 15, 16, 17, 18, 19, 20])] :=
  c1_amended_monotone_insufficient_data _ _ _ (List.mem_singleton.mpr rfl)
    (by norm_num [List.chain'_cons]) (by simp)

/-- C4: for every market-data map and every asset whose daily_history
contains fewer than 14 closing prices or is absent,
TradingSignalDetector.detect_opportunities maps that asset to
"No signal (insufficient history)". -/
theorem c4_insufficient_history
    (market_data : List (String × Option (List ℚ))) (asset : String)
    (entry : Option (List ℚ)) (hmem : (asset, entry) ∈ market_data)
    (hshort : entry = none ∨ ∃ h, entry = some h ∧ h.length < 14) :
    (asset, "No signal (insufficient history)") ∈ detect_opportunities market_data := by
  have hsig : detectSignal entry = "No signal (insufficient history)" := by
    rcases hshort with rfl | ⟨h, rfl, hlt⟩
    · rfl
    · simp only [detectSignal, ge_iff_le]
      rw [if_neg (by omega)]
  exact List.mem_map.mpr ⟨(asset, entry), hmem, by simp [hsig]⟩

/-- C4 witness: the theorem applied to an asset with a 3-point history and
to an asset with no daily_history at all. -/
theorem c4_witness :
    ("A", "No signal (insufficient history)") ∈
      detect_opportunities [("A", some [(1 : ℚ), 2, 3]), ("B", none)] ∧
    ("B", "No signal (insufficient history)") ∈
      detect_opportunities [("A", some [(1 : ℚ), 2, 3]), ("B", none)] :=
  ⟨c4_insufficient_history _ _ _ (by simp) (Or.inr ⟨[(1 : ℚ), 2, 3], rfl, by simp⟩),
   c4_insufficient_history _ _ _ (by simp) (Or.inl rfl)⟩

/-- C5: for every constant sequence of at least 14 closing prices, the
rolling average loss is 0 at every point, the final RSI is undefined, and
TradingSignalDetector.detect_opportunities maps the asset to
"No signal (insufficient data)". -/
theorem c5_constant_insufficient_data
    (market_data : List (String × Option (List ℚ))) (asset : String)
    (h : List ℚ) (c : ℚ) (hmem : (asset, some h) ∈ market_data)
    (hlen : 14 ≤ h.length) (hconst : ∀ x ∈ h, x = c) :
    losses h = List.replicate h.length 0 ∧
    (∀ i, rollingMeanAt (losses h) i = 0) ∧
    rsiLast h = none ∧
    (asset, "No signal (insufficient data)") ∈ detect_opportunities market_data := by
  have hd : ∀ d ∈ diffs h, 0 ≤ d :=
    fun d hdm => le_of_eq (diffs_zero_of_const h c hconst d hdm).symm
  have hne : h ≠ [] := by
    intro he
    rw [he] at hlen
    simp at hlen
  have hrep := losses_eq_replicate h hne hd
  have hav : avgLossLast h = 0 := by
    unfold avgLossLast
    rw [hrep, rollingMeanAt_replicate_zero]
  refine ⟨hrep, ?_, ?_, ?_⟩
  · intro i
    rw [hrep, rollingMeanAt_replicate_zero]
  · unfold rsiLast
    rw [if_pos hav]
  · exact List.mem_map.mpr
      ⟨(asset, some h), hmem, by simp [detectSignal_insufficient_data h hlen hd]⟩

/-- C5 witness: the theorem applied to a constant 14-point history. -/
theorem c5_witness :
    rsiLast (List.replicate 14 (5 : ℚ)) = none ∧
    ("A", "No signal (insufficient data)") ∈
      detect_opportunities [("A", some (List.replicate 14 (5 : ℚ)))] := by
  have h := c5_constant_insufficient_data [("A", some (List.replicate 14 (5 : ℚ)))]
    "A" (List.replicate 14 (5 : ℚ)) 5 (List.mem_singleton.mpr rfl) (by simp)
    (fun x hx => List.eq_of_mem_replicate hx)
  exact ⟨h.2.2.1, h.2.2.2⟩

/-- C2: AlertManager.process_alerts sends an alert for an asset exactly
when its signal contains "Oversold" and the looked-up average compound
exceeds 0.5, or the signal contains "Overbought" and the average compound
is below -0.5; in particular it fires for ("Momentum (Oversold)", 0.6) and
does not fire for ("Momentum (Oversold)", 0.4) or
("Momentum (Overbought)", 0.6). -/
theorem c2_alert_rule :
    (∀ (opportunities : List (String × String))
       (asset_sentiments : List (String × SentimentInfo)) (asset : String),
      asset ∈ process_alerts opportunities asset_sentiments ↔
        ∃ signal, (asset, signal) ∈ opportunities ∧
          ((occursIn "Oversold".toList signal.toList ∧
              1/2 < ((asset_sentiments.lookup asset).getD defaultSentiment).avg_compound) ∨
           (occursIn "Overbought".toList signal.toList ∧
              ((asset_sentiments.lookup asset).getD defaultSentiment).avg_compound < -(1/2)))) ∧
    process_alerts [("X", "Momentum (Oversold)")] [("X", ⟨3/5, 1⟩)] = ["X"] ∧
    process_alerts [("X", "Momentum (Oversold)")] [("X", ⟨2/5, 1⟩)] = [] ∧
    process_alerts [("X", "Momentum (Overbought)")] [("X", ⟨3/5, 1⟩)] = [] := by
  refine ⟨?_, ?_, ?_, ?_⟩
  · intro opportunities asset_sentiments asset
    simp only [process_alerts, List.mem_filterMap]
    constructor
    · rintro ⟨p, hp, hf⟩
      by_cases hsa :
          shouldAlert p.2 ((asset_sentiments.lookup p.1).getD defaultSentiment) = true
      · rw [if_pos hsa] at hf
        have hpa : p.1 = asset := by injection hf
        subst hpa
        exact ⟨p.2, by simpa using hp, (shouldAlert_iff _ _).mp hsa⟩
      · rw [if_neg hsa] at hf
        exact absurd hf (by simp)
    · rintro ⟨signal, hmem, hrule⟩
      exact ⟨(asset, signal), hmem, by rw [if_pos ((shouldAlert_iff _ _).mpr hrule)]⟩
  · have h : shouldAlert "Momentum (Oversold)" ⟨3/5, 1⟩ = true := by
      simp only [shouldAlert, Bool.or_eq_true, Bool.and_eq_true, decide_eq_true_eq]
      exact Or.inl ⟨by decide, by norm_num⟩
    simp [process_alerts, List.filterMap, List.lookup, h]
  · have h : shouldAlert "Momentum (Oversold)" ⟨2/5, 1⟩ = false := by
      simp only [shouldAlert, Bool.or_eq_false_iff, Bool.and_eq_false_iff]
      constructor
      · right
        simp only [decide_eq_false_iff_not]
        norm_num
      · left
        decide
    simp [process_alerts, List.filterMap, List.lookup, h]
  · have h : shouldAlert "Momentum (Overbought)" ⟨3/5, 1⟩ = false := by
      simp only [shouldAlert, Bool.or_eq_false_iff, Bool.and_eq_false_iff]
      constructor
      · left
        decide
      · right
        simp only [decide_eq_false_iff_not]
        norm_num
    simp [process_alerts, List.filterMap, List.lookup, h]

/-- C2 witness: the general rule of the theorem applied at a concrete
oversold signal with average compound 0.6, discharging the rule there. -/
theorem c2_witness :
    "X" ∈ process_alerts [("X", "Momentum (Oversold)")] [("X", ⟨3/5, 1⟩)] := by
  refine (c2_alert_rule.1 _ _ _).mpr ⟨"Momentum (Oversold)", by simp, Or.inl ⟨?_, ?_⟩⟩
  · exact ⟨"Momentum (".toList, ")".toList, by decide⟩
  · have hl : ((List.lookup "X" [("X", (⟨3/5, 1⟩ : SentimentInfo))]).getD
        defaultSentiment).avg_compound = 3/5 := rfl
    rw [hl]
    norm_num

/-- C10: an asset present in the opportunities map but absent from the
asset-sentiments map gets the default record avg_compound 0, count 0, which
satisfies neither threshold, so process_alerts never sends an alert for it,
regardless of its signal label. -/
theorem c10_missing_sentiment_no_alert
    (opportunities : List (String × String))
    (asset_sentiments : List (String × SentimentInfo)) (asset : String)
    (hnone : asset_sentiments.lookup asset = none) :
    (asset_sentiments.lookup asset).getD defaultSentiment = defaultSentiment ∧
    (∀ signal, shouldAlert signal ((asset_sentiments.lookup asset).getD defaultSentiment)
      = false) ∧
    asset ∉ process_alerts opportunities asset_sentiments := by
  have hdef : (asset_sentiments.lookup asset).getD defaultSentiment = defaultSentiment := by
    rw [hnone]
    rfl
  have hfalse : ∀ signal, shouldAlert signal defaultSentiment = false := by
    intro signal
    unfold shouldAlert defaultSentiment
    rw [decide_eq_false (by norm_num : ¬ ((1 : ℚ)/2 < (⟨0, 0⟩ : SentimentInfo).avg_compound)),
      decide_eq_false (by norm_num : ¬ ((⟨0, 0⟩ : SentimentInfo).avg_compound < -((1 : ℚ)/2)))]
    simp
  refine ⟨hdef, fun signal => by rw [hdef]; exact hfalse signal, ?_⟩
  intro hmem
  rcases List.mem_filterMap.mp hmem with ⟨p, hp, hf⟩
  by_cases hsa : shouldAlert p.2 ((asset_sentiments.lookup p.1).getD defaultSentiment) = true
  · rw [if_pos hsa] at hf
    have hpa : p.1 = asset := by injection hf
    rw [hpa, hnone] at hsa
    rw [show (Option.getD (none : Option SentimentInfo) defaultSentiment) = defaultSentiment
      from rfl, hfalse p.2] at hsa
    exact Bool.false_ne_true hsa
  · rw [if_neg hsa] at hf
    exact Option.noConfusion hf

/-- C10 witness: the theorem applied to a concrete asset with a qualifying
signal label and an empty asset-sentiments map. -/
theorem c10_witness :
    (( ([] : List (String × SentimentInfo)).lookup "X" ).getD defaultSentiment
        = defaultSentiment) ∧
    "X" ∉ process_alerts [("X", "Momentum (Oversold)")] [] := by
  have h := c10_missing_sentiment_no_alert [("X", "Momentum (Oversold)")] [] "X" rfl
  exact ⟨h.1, h.2.2⟩

/-- C6: aggregate_sentiment_by_asset counts a headline toward a ticker
exactly when the lowercased ticker occurs in the lowercased headline or
description, returns the arithmetic mean of the matched compound scores
with count equal to the number of matches, gives the record (0, 0) to a
ticker with no match, and on tickers ["ABC"] with one headline
"ABC rallies" of compound 0.8 yields (0.8, 1). -/
theorem c6_sentiment_aggregation :
    (∀ (news : List NewsItem) (assets : List String) (asset : String),
      (∀ item, matchesAsset asset item = true ↔
        (occursIn (lowerL asset) (lowerL item.title) ∨
         occursIn (lowerL asset) (lowerL item.description))) ∧
      (asset ∈ assets →
        (asset, aggregateForAsset news asset) ∈ aggregate_sentiment_by_asset news assets) ∧
      (aggregateForAsset news asset).2 = (news.filter (matchesAsset asset)).length ∧
      (news.filter (matchesAsset asset) = [] → aggregateForAsset news asset = (0, 0)) ∧
      (news.filter (matchesAsset asset) ≠ [] →
        (aggregateForAsset news asset).1 =
          ((news.filter (matchesAsset asset)).map NewsItem.compound).sum /
            ((news.filter (matchesAsset asset)).length : ℚ))) ∧
    aggregateForAsset [⟨"ABC rallies", "", 4/5⟩] "ABC" = (4/5, 1) := by
  constructor
  · intro news assets asset
    refine ⟨fun item => matchesAsset_iff asset item, ?_, ?_, ?_, ?_⟩
    · intro ha
      exact List.mem_map.mpr ⟨asset, ha, rfl⟩
    · unfold aggregateForAsset
      by_cases he : ((news.filter (matchesAsset asset)).map NewsItem.compound).isEmpty
      · rw [if_pos he]
        simp only [List.isEmpty_iff, List.map_eq_nil_iff] at he
        simp [he]
      · rw [if_neg he]
        simp
    · intro he
      unfold aggregateForAsset
      rw [he]
      simp
    · intro he
      unfold aggregateForAsset
      rw [if_neg (by simpa [List.isEmpty_iff, List.map_eq_nil_iff] using he)]
      simp
  · have hm : matchesAsset "ABC" ⟨"ABC rallies", "", 4/5⟩ = true := by decide
    simp [aggregateForAsset, List.filter, hm]

/-- C6 witness: the general statement applied to the one-headline example,
discharging the membership and nonempty-match hypotheses there, together
with the no-match default on a headline that does not mention the ticker. -/
theorem c6_witness :
    ("ABC", aggregateForAsset [⟨"ABC rallies", "", 4/5⟩] "ABC") ∈
      aggregate_sentiment_by_asset [⟨"ABC rallies", "", 4/5⟩] ["ABC"] ∧
    aggregateForAsset [⟨"XYZ rallies", "", 4/5⟩] "ABC" = (0, 0) := by
  refine ⟨(c6_sentiment_aggregation.1 [⟨"ABC rallies", "", 4/5⟩] ["ABC"] "ABC").2.1
      (by simp), ?_⟩
  refine (c6_sentiment_aggregation.1 [⟨"XYZ rallies", "", 4/5⟩] [] "ABC").2.2.2.1 ?_
  have hm : matchesAsset "ABC" ⟨"XYZ rallies", "", 4/5⟩ = false := by decide
  simp [List.filter, hm]

/-- C3: every candidate with fetched data is scored with the composite
0.4 times the sentiment weight plus 0.3 times the volatility plus 0.3 times
the inverse P/E, where the sentiment weight is the absolute average
compound when the count is positive and 0.1 otherwise, and the P/E score is
1 / pe when the forward P/E is finite and positive and 0 otherwise. -/
theorem c3_composite_score
    (candidates : List (String × Option FetchedAsset))
    (asset_sentiments : List (String × SentimentInfo))
    (t : String) (d : FetchedAsset) (hmem : (t, some d) ∈ candidates) :
    (t, (4/10) * (if 0 < ((asset_sentiments.lookup t).getD defaultSentiment).count
            then |((asset_sentiments.lookup t).getD defaultSentiment).avg_compound|
            else 1/10)
        + (3/10) * d.volatility
        + (3/10) * (match d.forwardPE with
            | some pe => if 0 < pe then 1 / pe else 0
            | none => 0)) ∈ scoredCandidates candidates asset_sentiments := by
  apply List.mem_filterMap.mpr
  refine ⟨(t, some d), hmem, ?_⟩
  show some (t, compositeScore ((asset_sentiments.lookup t).getD defaultSentiment) d) = _
  have hc : compositeScore ((asset_sentiments.lookup t).getD defaultSentiment) d
      = (4/10) * (if 0 < ((asset_sentiments.lookup t).getD defaultSentiment).count
            then |((asset_sentiments.lookup t).getD defaultSentiment).avg_compound|
            else 1/10)
        + (3/10) * d.volatility
        + (3/10) * (match d.forwardPE with
            | some pe => if 0 < pe then 1 / pe else 0
            | none => 0) := by
    cases hpe : d.forwardPE with
    | none =>
      simp only [compositeScore, sentimentWeight, peScore, hpe]
      ring
    | some pe =>
      simp only [compositeScore, sentimentWeight, peScore, hpe]
      ring
  rw [hc]

/-- C3 witness: the theorem applied to a concrete candidate with volatility
1, forward P/E 2, and no sentiment entry. -/
theorem c3_witness :
    ("T", (4/10) * ((1 : ℚ)/10) + (3/10) * 1 + (3/10) * (1/2)) ∈
      scoredCandidates [("T", some ⟨1, some 2⟩)] [] := by
  have h := c3_composite_score [("T", some ⟨1, some 2⟩)] [] "T" ⟨1, some 2⟩
    (List.mem_singleton.mpr rfl)
  simpa using h

/-- C7: find_interesting_assets returns the scored candidates sorted in
descending score order, truncated to target_assets clamped to the interval
5 to 10; the sorted list is a permutation of the scored list, and the sort
is stable: on the index-annotated scored list the sorted result is ordered
by score descending with ties in strictly increasing original position. -/
theorem c7_ranking_stable_sort (target_assets : ℕ)
    (candidates : List (String × Option FetchedAsset))
    (asset_sentiments : List (String × SentimentInfo)) :
    find_interesting_assets target_assets candidates asset_sentiments
      = ((sortDesc Prod.snd (scoredCandidates candidates asset_sentiments)).map
          Prod.fst).take (max 5 (min target_assets 10))
    ∧ 5 ≤ targetClamped target_assets
    ∧ targetClamped target_assets ≤ 10
    ∧ List.Pairwise (fun a b => b.2 ≤ a.2)
        (sortDesc Prod.snd (scoredCandidates candidates asset_sentiments))
    ∧ (sortDesc Prod.snd (scoredCandidates candidates asset_sentiments)).Perm
        (scoredCandidates candidates asset_sentiments)
    ∧ (sortDesc (fun p => p.2.2) (scoredCandidates candidates asset_sentiments).enum).map
        Prod.snd = sortDesc Prod.snd (scoredCandidates candidates asset_sentiments)
    ∧ List.Pairwise (fun a b => b.2.2 < a.2.2 ∨ (a.2.2 = b.2.2 ∧ a.1 < b.1))
        (sortDesc (fun p => p.2.2) (scoredCandidates candidates asset_sentiments).enum) := by
  refine ⟨rfl, ?_, ?_, sortDesc_sorted _ _, sortDesc_perm _ _, ?_, ?_⟩
  · unfold targetClamped
    omega
  · unfold targetClamped
    omega
  · rw [sortDesc_map_snd Prod.snd (scoredCandidates candidates asset_sentiments).enum,
      List.enum_map_snd]
  · exact sortDesc_lex (fun p => p.2.2) Prod.fst _
      (pairwise_idx_enum (scoredCandidates candidates asset_sentiments))

/-- C8: when find_interesting_assets returns an empty ranked list, main
falls back to the hardcoded constant list of 10 tickers truncated to its
first 5 entries. -/
theorem c8_fallback (target_assets : ℕ)
    (candidates : List (String × Option FetchedAsset))
    (asset_sentiments : List (String × SentimentInfo))
    (hempty : find_interesting_assets target_assets candidates asset_sentiments = []) :
    selectAssets (find_interesting_assets target_assets candidates asset_sentiments)
        = fallbackTickers.take 5 ∧
    fallbackTickers.length = 10 ∧
    fallbackTickers.take 5 = ["DZSI", "BBWI", "ETSY", "SENS", "NGVC"] := by
  refine ⟨?_, rfl, rfl⟩
  rw [hempty]
  rfl

/-- C8 witness: the theorem applied to an empty candidate pool, which makes
the ranked list empty. -/
theorem c8_witness :
    selectAssets (find_interesting_assets 5 [] []) = fallbackTickers.take 5 ∧
    fallbackTickers.length = 10 ∧
    fallbackTickers.take 5 = ["DZSI", "BBWI", "ETSY", "SENS", "NGVC"] :=
  c8_fallback 5 [] [] rfl

/-- C9: the composite score is monotone in each input separately: larger
sentiment magnitude with positive count gives a score at least as large,
larger volatility gives a strictly larger score, and a larger inverse P/E
score gives a strictly larger score. -/
theorem c9_monotonicity :
    (∀ (d : FetchedAsset) (a1 a2 : ℚ) (c1 c2 : ℕ), 0 < c1 → 0 < c2 → |a1| ≤ |a2| →
      compositeScore ⟨a1, c1⟩ d ≤ compositeScore ⟨a2, c2⟩ d) ∧
    (∀ (s : SentimentInfo) (pe : Option ℚ) (v1 v2 : ℚ), v1 < v2 →
      compositeScore s ⟨v1, pe⟩ < compositeScore s ⟨v2, pe⟩) ∧
    (∀ (s : SentimentInfo) (v : ℚ) (p1 p2 : Option ℚ), peScore p1 < peScore p2 →
      compositeScore s ⟨v, p1⟩ < compositeScore s ⟨v, p2⟩) := by
  refine ⟨?_, ?_, ?_⟩
  · intro d a1 a2 c1 c2 hc1 hc2 hab
    unfold compositeScore sentimentWeight
    dsimp only
    rw [if_pos hc1, if_pos hc2]
    linarith
  · intro s pe v1 v2 hv
    unfold compositeScore
    dsimp only
    linarith
  · intro s v p1 p2 hp
    unfold compositeScore
    dsimp only
    linarith

/-- C9 witness: the three parts of the theorem applied at concrete inputs,
each hypothesis discharged numerically. -/
theorem c9_witness :
    compositeScore ⟨1/2, 1⟩ ⟨1, none⟩ ≤ compositeScore ⟨3/4, 1⟩ ⟨1, none⟩ ∧
    compositeScore ⟨1/2, 1⟩ ⟨1, none⟩ < compositeScore ⟨1/2, 1⟩ ⟨2, none⟩ ∧
    compositeScore ⟨1/2, 1⟩ ⟨1, none⟩ < compositeScore ⟨1/2, 1⟩ ⟨1, some 2⟩ :=
  ⟨c9_monotonicity.1 ⟨1, none⟩ (1/2) (3/4) 1 1 (by norm_num) (by norm_num)
      (by rw [abs_of_nonneg (by norm_num), abs_of_nonneg (by norm_num)]; norm_num),
   c9_monotonicity.2.1 ⟨1/2, 1⟩ none 1 2 (by norm_num),
   c9_monotonicity.2.2 ⟨1/2, 1⟩ 1 none (some 2) (by norm_num [peScore])⟩

end ScrappyMVP
